import Mathlib

/-
Verification of the geneva strategy crate: data model, trigger and action
engines, canonical serialization, and the strategy parser, embedded in Lean.

Rust `Result` values, together with the panics that `unimplemented!()` and
`unreachable!()` raise in the source, are modelled by `RResult`.  The crate's
`lib.rs` (the `Packet` type and the `Display` instance of `Strategy`) and the
pest grammar file `parser/geneva.pest` are not present under `src/`; the
definitions for those two pieces are modelled from the specification and are
marked as such in their doc comments.  Everything else is translated directly
from the Rust sources.
-/

namespace Geneva

/-- Modelled from the spec: the crate's `lib.rs` is missing from `src/`; per
spec section 3 and 4.1, a `Packet` is an owned byte buffer with structural
equality and independent copies. -/
structure Packet where
  bytes : List Nat
deriving DecidableEq, Repr

/-- Modelled from the spec: `Packet::new` wraps a byte vector. -/
def Packet.new (b : List Nat) : Packet := ⟨b⟩

/-- Modelled from the spec: `Packet::as_slice` exposes the byte buffer. -/
def Packet.as_slice (p : Packet) : List Nat := p.bytes

/-- The error type of `src/geneva/src/errors/mod.rs`.  `Parse` carries the
offending text; `Syntax` wraps a pest grammar error, whose position-annotated
payload is abstracted away here. -/
inductive Error where
  | Parse (s : String)
  | Syntax
deriving DecidableEq, Repr

/-- Outcome of a Rust computation: a `Result` value, or a panic raised by
`unimplemented!()` / `unreachable!()`. -/
inductive RResult (α : Type) where
  | ok (a : α)
  | err (e : Error)
  | panic
deriving DecidableEq, Repr

/-- The `IPField` enum of `src/geneva/src/triggers/ip.rs`. -/
inductive IPField where
  | Version | IHL | TOS | Length | Identification | Flags | FragmentOffset
  | TTL | Protocol | Checksum | SourceAddress | DestAddress | Payload
deriving DecidableEq, Repr, Fintype

/-- `impl fmt::Display for IPField` (ip.rs lines 26-46). -/
def IPField.toStr : IPField → String
  | .Version => "version"
  | .IHL => "ihl"
  | .TOS => "tos"
  | .Length => "len"
  | .Identification => "id"
  | .Flags => "flags"
  | .FragmentOffset => "frag"
  | .TTL => "ttl"
  | .Protocol => "protocol"
  | .Checksum => "chksum"
  | .SourceAddress => "src"
  | .DestAddress => "dst"
  | .Payload => "load"

/-- `impl FromStr for IPField` (ip.rs lines 48-69).  Note the asymmetry with
`IPField.toStr`: only the uppercase spelling `TOS` is accepted, while the
display form is the lowercase `tos`. -/
def IPField.from_str (s : String) : RResult IPField :=
  match s with
  | "version" => .ok .Version
  | "ihl" => .ok .IHL
  | "TOS" => .ok .TOS
  | "len" => .ok .Length
  | "id" => .ok .Identification
  | "flags" => .ok .Flags
  | "frag" => .ok .FragmentOffset
  | "ttl" => .ok .TTL
  | "protocol" => .ok .Protocol
  | "chksum" => .ok .Checksum
  | "src" => .ok .SourceAddress
  | "dst" => .ok .DestAddress
  | "load" => .ok .Payload
  | _ => .err (.Parse s)

/-- The `TCPField` enum of `src/geneva/src/triggers/tcp.rs`. -/
inductive TCPField where
  | SourcePort | DestPort | Seq | Ack | DataOffset | Reserved | Flags
  | Window | Checksum | UrgentPointer | Payload
  | OptionEOL | OptionNOP | OptionMSS | OptionWScale | OptionSackOk
  | OptionSack | OptionTimestamp | OptionAltChecksum | OptionAltChecksumOpt
  | OptionMD5Header | OptionUTO
deriving DecidableEq, Repr, Fintype

/-- `impl fmt::Display for TCPField` (tcp.rs lines 35-64). -/
def TCPField.toStr : TCPField → String
  | .SourcePort => "sport"
  | .DestPort => "dport"
  | .Seq => "seq"
  | .Ack => "ack"
  | .DataOffset => "dataofs"
  | .Reserved => "reserved"
  | .Flags => "flags"
  | .Window => "window"
  | .Checksum => "chksum"
  | .UrgentPointer => "urgptr"
  | .Payload => "load"
  | .OptionEOL => "options-eol"
  | .OptionNOP => "options-nop"
  | .OptionMSS => "options-mss"
  | .OptionWScale => "options-wscale"
  | .OptionSackOk => "options-sackok"
  | .OptionSack => "options-sack"
  | .OptionTimestamp => "options-timestamp"
  | .OptionAltChecksum => "options-altchksum"
  | .OptionAltChecksumOpt => "options-altchksumopt"
  | .OptionMD5Header => "options-md5header"
  | .OptionUTO => "options-uto"

/-- `impl FromStr for TCPField` (tcp.rs lines 66-96). -/
def TCPField.from_str (s : String) : RResult TCPField :=
  match s with
  | "sport" => .ok .SourcePort
  | "dport" => .ok .DestPort
  | "seq" => .ok .Seq
  | "ack" => .ok .Ack
  | "dataofs" => .ok .DataOffset
  | "reserved" => .ok .Reserved
  | "flags" => .ok .Flags
  | "window" => .ok .Window
  | "chksum" => .ok .Checksum
  | "urgptr" => .ok .UrgentPointer
  | "load" => .ok .Payload
  | "options-eol" => .ok .OptionEOL
  | "options-nop" => .ok .OptionNOP
  | "options-mss" => .ok .OptionMSS
  | "options-wscale" => .ok .OptionWScale
  | "options-sackok" => .ok .OptionSackOk
  | "options-sack" => .ok .OptionSack
  | "options-timestamp" => .ok .OptionTimestamp
  | "options-altchksum" => .ok .OptionAltChecksum
  | "options-altchksumopt" => .ok .OptionAltChecksumOpt
  | "options-md5header" => .ok .OptionMD5Header
  | "options-uto" => .ok .OptionUTO
  | _ => .err (.Parse s)

/-- The `IPTrigger` struct (ip.rs lines 72-78); `_ip_field` is the unused
per-field byte tag. -/
structure IPTrigger where
  field : IPField
  value : String
  gas : Nat
  ip_field_tag : Nat
deriving DecidableEq, Repr

/-- `IPTrigger::new` (ip.rs lines 82-89): infallible constructor. -/
def IPTrigger.new (field : IPField) (value : String) (gas : Nat)
    (ip_field_tag : Nat) : IPTrigger :=
  ⟨field, value, gas, ip_field_tag⟩

/-- `IPTrigger::matches` (ip.rs lines 105-107) is `unimplemented!()` and
panics on every packet. -/
def IPTrigger.matches (_t : IPTrigger) (_pkt : Packet) : RResult Bool :=
  .panic

/-- The `TCPTrigger` struct (tcp.rs lines 99-104). -/
structure TCPTrigger where
  field : TCPField
  value : String
  gas : Nat
deriving DecidableEq, Repr

/-- `TCPTrigger::new` (tcp.rs lines 108-111): always returns `Ok`. -/
def TCPTrigger.new (field : TCPField) (value : String) (gas : Nat) :
    RResult TCPTrigger :=
  .ok ⟨field, value, gas⟩

/-- `TCPTrigger::matches` (tcp.rs lines 131-133) is `unimplemented!()` and
panics on every packet. -/
def TCPTrigger.matches (_t : TCPTrigger) (_pkt : Packet) : RResult Bool :=
  .panic

/-- The `GenevaTrigger` enum of `src/geneva/src/triggers/mod.rs`. -/
inductive GenevaTrigger where
  | IP (t : IPTrigger)
  | TCP (t : TCPTrigger)
deriving DecidableEq, Repr

/-- `Trigger::protocol` for `GenevaTrigger` (triggers/mod.rs lines 38-43). -/
def GenevaTrigger.protocol : GenevaTrigger → String
  | .IP _ => "IP"
  | .TCP _ => "TCP"

/-- `Trigger::field` for `GenevaTrigger` (triggers/mod.rs lines 45-50). -/
def GenevaTrigger.field : GenevaTrigger → String
  | .IP t => t.field.toStr
  | .TCP t => t.field.toStr

/-- `Trigger::gas` for `GenevaTrigger` (triggers/mod.rs lines 52-57). -/
def GenevaTrigger.gas : GenevaTrigger → Nat
  | .IP t => t.gas
  | .TCP t => t.gas

/-- `Trigger::matches` for `GenevaTrigger` (triggers/mod.rs lines 59-64);
both variants' `matches` are `unimplemented!()`. -/
def GenevaTrigger.matches : GenevaTrigger → Packet → RResult Bool
  | .IP t, pkt => t.matches pkt
  | .TCP t, pkt => t.matches pkt

/-- The `TamperMode` enum of `src/geneva/src/actions/tamper.rs`. -/
inductive TamperMode where
  | Replace | Corrupt | Add
deriving DecidableEq, Repr

/-- `impl fmt::Display for TamperMode` (tamper.rs lines 21-29). -/
def TamperMode.toStr : TamperMode → String
  | .Replace => "replace"
  | .Corrupt => "corrupt"
  | .Add => "add"

/-- The `GenevaAction` enum of `src/geneva/src/actions/mod.rs` together with
the structs its variants wrap: `SendAction` and `DropAction` carry no data,
`DuplicateAction` owns two children, `FragmentAction` (fragment.rs lines
21-29) carries `protocol`, `fragment_size`, `in_order`, the reserved
`_overlap`, and two children, `TamperAction` (tamper.rs lines 32-39) carries
`protocol`, `field`, `new_value`, `mode` and one child.  The Rust
per-variant structs are fused into one inductive because they are mutually
recursive with `GenevaAction`. -/
inductive GenevaAction where
  | send
  | drop
  | duplicate (left right : GenevaAction)
  | fragment (protocol fragment_size : Nat) (in_order : Bool) (overlap_tag : Nat)
      (left_action right_action : GenevaAction)
  | tamper (protocol field new_value : String) (mode : TamperMode)
      (action : GenevaAction)
deriving DecidableEq, Repr

/-- `DuplicateAction::new` (actions/mod.rs lines 98-105). -/
def DuplicateAction.new (left right : GenevaAction) : GenevaAction :=
  .duplicate left right

/-- `FragmentAction::new` (fragment.rs lines 31-51): always returns `Ok`. -/
def FragmentAction.new (protocol fragment_size : Nat) (in_order : Bool)
    (overlap_tag : Nat) (left_action right_action : GenevaAction) :
    RResult GenevaAction :=
  .ok (.fragment protocol fragment_size in_order overlap_tag left_action right_action)

/-- `TamperAction::new` (tamper.rs lines 41-58): always returns `Ok`. -/
def TamperAction.new (protocol field new_value : String) (mode : TamperMode)
    (action : GenevaAction) : RResult GenevaAction :=
  .ok (.tamper protocol field new_value mode action)

/-- `Action::run` for every `GenevaAction` variant: `SendAction::run`
(actions/mod.rs lines 68-72) yields the packet unchanged; `DropAction::run`
(lines 146-150) yields nothing; `DuplicateAction::run` (lines 107-121) copies
the packet, runs `left` on the original and `right` on the copy, and
concatenates; `FragmentAction::run` (fragment.rs lines 53-57) and
`TamperAction::run` (tamper.rs lines 60-64) are `unimplemented!()` and
panic. -/
def GenevaAction.run : GenevaAction → Packet → RResult (List Packet)
  | .send, pkt => .ok [pkt]
  | .drop, _ => .ok []
  | .duplicate l r, pkt =>
    let dupe := Packet.new pkt.as_slice
    match l.run pkt with
    | .ok lpackets =>
      match r.run dupe with
      | .ok rpackets => .ok (lpackets ++ rpackets)
      | .err e => .err e
      | .panic => .panic
    | .err e => .err e
    | .panic => .panic
  | .fragment _ _ _ _ _ _, _ => .panic
  | .tamper _ _ _ _ _, _ => .panic

/-- Decimal rendering of a `Nat`, as Rust's `Display` for integers. -/
def natChars (n : Nat) : List Char := (Nat.repr n).data

/-- The canonical serializer for actions, producing the character sequence of
the Rust `Display` impls: `SendAction` renders as the empty string
(actions/mod.rs lines 74-79); `DropAction` as `drop` (lines 152-156);
`DuplicateAction` (lines 123-134) and `FragmentAction` (fragment.rs lines
59-77) collapse the argument list when both children render empty;
`TamperAction` (tamper.rs lines 66-80) always renders `(child,)`, appending
`:new_value` inside the braces only in `Replace` mode. -/
def GenevaAction.print : GenevaAction → List Char
  | .send => []
  | .drop => "drop".data
  | .duplicate l r =>
    let left := l.print
    let right := r.print
    let args := if left.length + right.length = 0 then []
                else '(' :: left ++ ',' :: right ++ [')']
    "duplicate".data ++ args
  | .fragment protocol fragment_size in_order _ l r =>
    let left := l.print
    let right := r.print
    let args := if left.length + right.length = 0 then []
                else '(' :: left ++ ',' :: right ++ [')']
    let in_order_str := if in_order then "True".data else "False".data
    "fragment\x7b".data ++ natChars protocol ++ ':' :: natChars fragment_size
      ++ ':' :: in_order_str ++ '\x7d' :: args
  | .tamper protocol field new_value mode action =>
    let value_part := match mode with
      | .Replace => ':' :: new_value.data
      | _ => []
    "tamper\x7b".data ++ protocol.data ++ ':' :: field.data
      ++ ':' :: mode.toStr.data ++ value_part ++ "\x7d(".data
      ++ action.print ++ ",)".data

/-- String form of `GenevaAction.print`, the Rust `to_string()`. -/
def GenevaAction.to_string (a : GenevaAction) : String := ⟨a.print⟩

/-- The stored `value` string of either trigger variant. -/
def GenevaTrigger.valueOf : GenevaTrigger → String
  | .IP t => t.value
  | .TCP t => t.value

/-- The unused IP byte tag of a trigger (`0` for the TCP variant, which has
none). -/
def GenevaTrigger.tagOf : GenevaTrigger → Nat
  | .IP t => t.ip_field_tag
  | .TCP _ => 0

/-- The canonical serializer for triggers: `impl fmt::Display for IPTrigger`
(ip.rs lines 110-126) and for `TCPTrigger` (tcp.rs lines 136-152), both of
which append `:gas` only when `gas > 0`.  `GenevaTrigger`'s `Display`
(triggers/mod.rs lines 67-74) dispatches to the variant. -/
def GenevaTrigger.print (t : GenevaTrigger) : List Char :=
  let gasPart : List Char :=
    if t.gas > 0 then ':' :: natChars t.gas else []
  '[' :: t.protocol.data ++ ':' :: t.field.data ++ ':' :: t.valueOf.data
    ++ gasPart ++ [']']

/-- String form of `GenevaTrigger.print`. -/
def GenevaTrigger.to_string (t : GenevaTrigger) : String := ⟨t.print⟩

/-- The `ActionTree` struct of `src/geneva/src/actions/mod.rs` (lines
170-176): one trigger paired with the root of one action tree. -/
structure ActionTree where
  trigger : GenevaTrigger
  root_action : GenevaAction
deriving DecidableEq, Repr

/-- `ActionTree::matches` (actions/mod.rs lines 179-182). -/
def ActionTree.matches (t : ActionTree) (pkt : Packet) : RResult Bool :=
  t.trigger.matches pkt

/-- `ActionTree::apply` (actions/mod.rs lines 184-187). -/
def ActionTree.apply (t : ActionTree) (pkt : Packet) : RResult (List Packet) :=
  t.root_action.run pkt

/-- `impl fmt::Display for ActionTree` (actions/mod.rs lines 190-194):
`trigger-action-|`. -/
def ActionTree.print (t : ActionTree) : List Char :=
  t.trigger.print ++ '-' :: t.root_action.print ++ "-|".data

/-- String form of `ActionTree.print`. -/
def ActionTree.to_string (t : ActionTree) : String := ⟨t.print⟩

/-- `Forest`: an ordered list of action trees (strategy.rs line 65). -/
abbrev Forest := List ActionTree

/-- The `Direction` enum of `src/geneva/src/strategy.rs` (lines 47-52). -/
inductive Direction where
  | Inbound
  | Outbound
deriving DecidableEq, Repr

/-- The `Strategy` struct of `src/geneva/src/strategy.rs` (lines 68-72). -/
structure Strategy where
  outbound : Option Forest := none
  inbound : Option Forest := none
deriving DecidableEq, Repr

/-- One iteration of the forest loop in `Strategy::apply` (strategy.rs lines
96-113): if the tree's trigger matches the packet, the tree's action results
are contributed, otherwise the unmodified copy itself. -/
def ActionTree.contribute (t : ActionTree) (pkt : Packet) :
    RResult (List Packet) :=
  match t.matches pkt with
  | .ok true => t.apply pkt
  | .ok false => .ok [pkt]
  | .err e => .err e
  | .panic => .panic

/-- The loop body of `Strategy::apply` over a forest: each tree observes an
equivalent copy of the original packet and the contributions are concatenated
in forest order, the first failure propagating. -/
def applyForest : Forest → Packet → RResult (List Packet)
  | [], _ => .ok []
  | t :: ts, pkt =>
    match t.contribute pkt with
    | .ok ps =>
      match applyForest ts pkt with
      | .ok rest => .ok (ps ++ rest)
      | .err e => .err e
      | .panic => .panic
    | .err e => .err e
    | .panic => .panic

/-- `Strategy::apply` (strategy.rs lines 76-116): select the forest for the
direction; a missing or empty forest passes the packet through unchanged;
otherwise every tree contributes against a copy of the input. -/
def Strategy.apply (st : Strategy) (pkt : Packet) (direction : Direction) :
    RResult (List Packet) :=
  let forest := match direction with
    | .Inbound => st.inbound
    | .Outbound => st.outbound
  match forest with
  | none => .ok [pkt]
  | some f => if f.isEmpty then .ok [pkt] else applyForest f pkt

/-- Modelled from the spec: the `Display` instance of `Strategy` lives in the
missing `lib.rs`.  Per spec sections 4.4 and 6 and the crate's own round-trip
test (`parse_simple_strategy`, which checks that the strategy parsed from
`[TCP:flags:SA]-drop-| \/` prints back as exactly that text), each outbound
tree is printed followed by a space, then the `\/` separator, then each
inbound tree preceded by a space; an empty strategy prints as `\/`. -/
def Strategy.print (st : Strategy) : List Char :=
  (match st.outbound with
   | none => []
   | some f => (f.map (fun t => t.print ++ [' '])).flatten)
  ++ "\\/".data ++
  (match st.inbound with
   | none => []
   | some f => (f.map (fun t => ' ' :: t.print)).flatten)

/-- String form of `Strategy.print`, the Rust `Strategy::to_string()`. -/
def Strategy.to_string (st : Strategy) : String := ⟨st.print⟩

/-- Modelled from the spec: the grammar-level content of a `trigger` pest
pair, the missing `parser/geneva.pest` rule
`trigger := "[" protocol ":" field ":" value (":" gas)? "]"` (spec section
6). -/
structure RawTrigger where
  protocol : String
  field : String
  value : String
  gasTok : Option String
deriving DecidableEq, Repr

/-- Modelled from the spec: the grammar-level content of an `action` pest
pair (spec section 6): the empty send, `drop`, `duplicate` with an optional
two-child argument list, `fragment` with its brace head and optional
children, and `tamper` with its brace head, optional value and optional
single child.  Elided children are represented by the empty `send`, which is
what the defaulting in the Rust `parse_action` produces for them. -/
inductive RawAction where
  | send
  | drop
  | duplicate (l r : RawAction)
  | fragment (protocol size : String) (inOrder : Bool) (l r : RawAction)
  | tamper (protocol field mode : String) (value : Option String)
      (inner : RawAction)
deriving DecidableEq, Repr

/-- Modelled from the spec: the grammar-level content of an `action_tree`
pest pair, `action_tree := trigger "-" action "-|"` (spec section 6). -/
structure RawActionTree where
  trigger : RawTrigger
  action : RawAction
deriving DecidableEq, Repr

/-- Modelled from the spec: the grammar-level content of a whole `strategy`
pest parse, `strategy := forest? "\/" forest?` (spec section 6), the trees
on each side of the separator. -/
structure RawStrategy where
  outbound : List RawActionTree
  inbound : List RawActionTree
deriving DecidableEq, Repr

/-- Characters allowed in a protocol token: ASCII letters. -/
def isProtoChar (c : Char) : Bool := c.isAlpha

/-- Characters allowed in a field token: letters, digits and the hyphen used
by the TCP option fields. -/
def isFieldChar (c : Char) : Bool := c.isAlpha || c.isDigit || c == '-'

/-- Characters allowed in a trigger value token: anything up to the next
colon or closing bracket. -/
def isValueChar (c : Char) : Bool := !(c == ':' || c == ']')

/-- Characters allowed in a gas token: decimal digits. -/
def isGasChar (c : Char) : Bool := c.isDigit

/-- Whitespace between action trees and around the forest separator. -/
def isWsChar (c : Char) : Bool := c == ' ' || c == '\t' || c == '\n' || c == '\r'

/-- Characters allowed in a tamper value token: anything up to the next colon
or closing brace. -/
def isTamperValChar (c : Char) : Bool := !(c == ':' || c == '\x7d')

/-- Consume an expected literal prefix, returning the remaining input. -/
def expects : List Char → List Char → Option (List Char)
  | [], cs => some cs
  | _ :: _, [] => none
  | l :: ls, c :: cs => if c = l then expects ls cs else none

/-- Consume a non-empty token of characters satisfying `p`. -/
def takeTok (p : Char → Bool) (cs : List Char) :
    Option (List Char × List Char) :=
  if (cs.takeWhile p).isEmpty then none
  else some (cs.takeWhile p, cs.dropWhile p)

/-- Modelled from the spec: recognition of the pest `trigger` rule of the
missing `parser/geneva.pest` (spec section 6). -/
def parseTriggerText (cs : List Char) : Option (RawTrigger × List Char) := do
  let cs ← expects ['['] cs
  let (proto, cs) ← takeTok isProtoChar cs
  let cs ← expects [':'] cs
  let (field, cs) ← takeTok isFieldChar cs
  let cs ← expects [':'] cs
  let (value, cs) ← takeTok isValueChar cs
  match cs with
  | [] => none
  | c :: cs2 =>
    if c = ':' then do
      let (gas, cs3) ← takeTok isGasChar cs2
      let cs4 ← expects [']'] cs3
      some (⟨⟨proto⟩, ⟨field⟩, ⟨value⟩, some ⟨gas⟩⟩, cs4)
    else if c = ']' then
      some (⟨⟨proto⟩, ⟨field⟩, ⟨value⟩, none⟩, cs2)
    else none

/-- Modelled from the spec: recognition of the pest `action` rule of the
missing `parser/geneva.pest` (spec section 6), as a PEG ordered choice over
the named action forms with the empty `send` last.  The fuel argument bounds
the nesting depth and only decreases on child actions. -/
def parseActionText : Nat → List Char → Option (RawAction × List Char)
  | 0, _ => none
  | Nat.succ fuel, cs =>
    match expects "duplicate".data cs with
    | some cs1 =>
      match cs1 with
      | c :: cs2 =>
        if c = '(' then do
          let (l, cs3) ← parseActionText fuel cs2
          let cs4 ← expects [','] cs3
          let (r, cs5) ← parseActionText fuel cs4
          let cs6 ← expects [')'] cs5
          some (.duplicate l r, cs6)
        else some (.duplicate .send .send, c :: cs2)
      | [] => some (.duplicate .send .send, [])
    | none =>
    match expects "fragment\x7b".data cs with
    | some cs1 => do
      let (proto, cs2) ← takeTok isFieldChar cs1
      let cs3 ← expects [':'] cs2
      let (size, cs4) ← takeTok isGasChar cs3
      let cs5 ← expects [':'] cs4
      let (inOrder, cs6) ←
        match expects "True".data cs5 with
        | some rest => some (true, rest)
        | none =>
          match expects "False".data cs5 with
          | some rest => some (false, rest)
          | none => none
      let cs7 ← expects ['\x7d'] cs6
      match cs7 with
      | c :: cs8 =>
        if c = '(' then do
          let (l, cs9) ← parseActionText fuel cs8
          let cs10 ← expects [','] cs9
          let (r, cs11) ← parseActionText fuel cs10
          let cs12 ← expects [')'] cs11
          some (.fragment ⟨proto⟩ ⟨size⟩ inOrder l r, cs12)
        else some (.fragment ⟨proto⟩ ⟨size⟩ inOrder .send .send, c :: cs8)
      | [] => some (.fragment ⟨proto⟩ ⟨size⟩ inOrder .send .send, [])
    | none =>
    match expects "tamper\x7b".data cs with
    | some cs1 => do
      let (proto, cs2) ← takeTok isFieldChar cs1
      let cs3 ← expects [':'] cs2
      let (field, cs4) ← takeTok isFieldChar cs3
      let cs5 ← expects [':'] cs4
      let (mode, cs6) ←
        match expects "replace".data cs5 with
        | some rest => some ("replace", rest)
        | none =>
          match expects "corrupt".data cs5 with
          | some rest => some ("corrupt", rest)
          | none =>
            match expects "add".data cs5 with
            | some rest => some ("add", rest)
            | none => none
      let (value, cs7) ←
        match cs6 with
        | ':' :: cs6a => do
          let (v, rest) ← takeTok isTamperValChar cs6a
          some (some (⟨v⟩ : String), rest)
        | _ => some (none, cs6)
      let cs8 ← expects ['\x7d'] cs7
      match cs8 with
      | c :: cs9 =>
        if c = '(' then do
          let (inner, cs10) ← parseActionText fuel cs9
          let cs11 ← expects ",)".data cs10
          some (.tamper ⟨proto⟩ ⟨field⟩ mode value inner, cs11)
        else some (.tamper ⟨proto⟩ ⟨field⟩ mode value .send, c :: cs9)
      | [] => some (.tamper ⟨proto⟩ ⟨field⟩ mode value .send, [])
    | none =>
    match expects "drop".data cs with
    | some cs1 => some (.drop, cs1)
    | none => some (.send, cs)

/-- Modelled from the spec: recognition of the pest `action_tree` rule,
`trigger "-" action "-|"` (spec section 6). -/
def parseActionTreeText (fuel : Nat) (cs : List Char) :
    Option (RawActionTree × List Char) := do
  let (trigger, cs) ← parseTriggerText cs
  let cs ← expects ['-'] cs
  let (action, cs) ← parseActionText fuel cs
  let cs ← expects "-|".data cs
  some (⟨trigger, action⟩, cs)

/-- Modelled from the spec: recognition of a pest `forest`, zero or more
whitespace-separated action trees (spec section 6); stops before the first
character that cannot begin a trigger. -/
def parseForest : Nat → List Char → Option (List RawActionTree × List Char)
  | 0, _ => none
  | Nat.succ fuel, cs =>
    match cs.dropWhile isWsChar with
    | [] => some ([], [])
    | c :: cs1 =>
      if c = '[' then do
        let (t, cs2) ← parseActionTreeText (Nat.succ fuel) (c :: cs1)
        let (ts, cs3) ← parseForest fuel cs2
        some (t :: ts, cs3)
      else some ([], c :: cs1)

/-- Modelled from the spec: the whole pest `strategy` rule of the missing
`parser/geneva.pest`, `forest? "\/" forest?` up to end of input (spec
section 6); `GenevaParser::parse(Rule::strategy, s)`. -/
def pestParse (s : String) : Option RawStrategy := do
  let cs := s.data
  let fuel := cs.length + 1
  let (ob, cs) ← parseForest fuel cs
  let cs ← expects "\\/".data cs
  let (ib, cs) ← parseForest fuel cs
  if cs.isEmpty then some ⟨ob, ib⟩ else none

/-- Rust's `str::to_lowercase` on the strings this crate feeds it. -/
def lowerStr (s : String) : String := ⟨s.data.map Char.toLower⟩

/-- `parse_trigger` (parser/mod.rs lines 79-103): lowercases the protocol
token, resolves the field name through `FromStr`, and constructs the trigger
with a hard-coded `gas` of `0` (and `_ip_field` of `0` for IP); any other
protocol hits `unreachable!()`. -/
def parse_trigger (rt : RawTrigger) : RResult GenevaTrigger :=
  match lowerStr rt.protocol with
  | "tcp" =>
    match TCPField.from_str rt.field with
    | .ok field =>
      match TCPTrigger.new field rt.value 0 with
      | .ok t => .ok (.TCP t)
      | .err e => .err e
      | .panic => .panic
    | .err e => .err e
    | .panic => .panic
  | "ip" =>
    match IPField.from_str rt.field with
    | .ok field => .ok (.IP (IPTrigger.new field rt.value 0 0))
    | .err e => .err e
    | .panic => .panic
  | _ => .panic

/-- `parse_action` (parser/mod.rs lines 105-135): `send`, `drop` and
`duplicate` (whose missing children default to `SendAction::default()`) are
handled; every other action rule, in particular `fragment` and `tamper`,
falls into the `_ => unreachable!()` arm and panics. -/
def parse_action : RawAction → RResult GenevaAction
  | .send => .ok .send
  | .drop => .ok .drop
  | .duplicate l r =>
    match parse_action l with
    | .ok l_action =>
      match parse_action r with
      | .ok r_action => .ok (DuplicateAction.new l_action r_action)
      | .err e => .err e
      | .panic => .panic
    | .err e => .err e
    | .panic => .panic
  | .fragment _ _ _ _ _ => .panic
  | .tamper _ _ _ _ _ => .panic

/-- `parse_action_tree` (parser/mod.rs lines 55-77): the trigger pair is
converted first, then the action pair. -/
def parse_action_tree (rt : RawActionTree) : RResult ActionTree :=
  match parse_trigger rt.trigger with
  | .ok trigger =>
    match parse_action rt.action with
    | .ok action => .ok ⟨trigger, action⟩
    | .err e => .err e
    | .panic => .panic
  | .err e => .err e
  | .panic => .panic

/-- The per-forest loop of `parse_strategy` (parser/mod.rs lines 26-29):
trees converted in order, the first failure propagating. -/
def parseTrees : List RawActionTree → RResult (List ActionTree)
  | [] => .ok []
  | t :: ts =>
    match parse_action_tree t with
    | .ok a =>
      match parseTrees ts with
      | .ok rest => .ok (a :: rest)
      | .err e => .err e
      | .panic => .panic
    | .err e => .err e
    | .panic => .panic

/-- The forest bookkeeping of `parse_strategy` (parser/mod.rs lines 22-52):
the trees before the separator become `outbound`, the trees after it become
`inbound`, and an empty collection on either side is normalized to `None`. -/
def parse_strategy_raw (raw : RawStrategy) : RResult Strategy :=
  match parseTrees raw.outbound with
  | .ok ob =>
    match parseTrees raw.inbound with
    | .ok ib =>
      .ok ⟨if ob.isEmpty then none else some ob,
           if ib.isEmpty then none else some ib⟩
    | .err e => .err e
    | .panic => .panic
  | .err e => .err e
  | .panic => .panic

/-- `parse_strategy` (parser/mod.rs lines 16-53): run the pest grammar (a
grammar failure becomes `Error::Syntax` through the `From` impl in
errors/mod.rs) and convert the parse tree into a `Strategy`. -/
def parse_strategy (s : String) : RResult Strategy :=
  match pestParse s with
  | none => .err .Syntax
  | some raw => parse_strategy_raw raw

/-- The forest that `Strategy::apply` selects for a direction (strategy.rs
lines 77-80). -/
def Strategy.selected (st : Strategy) (d : Direction) : Option Forest :=
  match d with
  | .Inbound => st.inbound
  | .Outbound => st.outbound

/-- Whether a Rust outcome is a success. -/
def RResult.isOk {α : Type} : RResult α → Bool
  | .ok _ => true
  | _ => false

/-- Actions built only from the variants `parse_action` actually handles:
`send`, `drop` and `duplicate`. -/
def GenevaAction.parseable : GenevaAction → Bool
  | .send => true
  | .drop => true
  | .duplicate l r => l.parseable && r.parseable
  | _ => false

/-- Nesting depth of an action tree, the fuel needed to reparse it. -/
def GenevaAction.depth : GenevaAction → Nat
  | .send => 1
  | .drop => 1
  | .duplicate l r => 1 + max l.depth r.depth
  | .fragment _ _ _ _ l r => 1 + max l.depth r.depth
  | .tamper _ _ _ _ inner => 1 + inner.depth

/-- A trigger value string the grammar could have produced: non-empty and
free of the delimiters `:` and `]`. -/
def goodValue (v : String) : Bool := !v.data.isEmpty && v.data.all isValueChar

/-- A trigger in the exact shape `parse_trigger` produces: zero gas, zero IP
byte tag, and a grammar-producible value. -/
def GenevaTrigger.wellFormed (g : GenevaTrigger) : Bool :=
  g.gas == 0 && g.tagOf == 0 && goodValue g.valueOf

/-- Whether a trigger avoids the one field (`IPField::TOS`) whose `Display`
form the parser does not accept back. -/
def GenevaTrigger.noTOS : GenevaTrigger → Bool
  | .IP t => !(t.field == IPField.TOS)
  | .TCP _ => true

/-- An action tree in the exact shape the parser produces. -/
def ActionTree.wellFormed (t : ActionTree) : Bool :=
  t.trigger.wellFormed && t.root_action.parseable

/-- Whether every trigger of the tree avoids `IPField::TOS`. -/
def ActionTree.noTOS (t : ActionTree) : Bool := t.trigger.noTOS

/-- A strategy in the exact shape the parser produces: each direction is
either absent or a non-empty forest of well-formed trees. -/
def Strategy.wellFormed (st : Strategy) : Bool :=
  (match st.outbound with
   | none => true
   | some f => !f.isEmpty && f.all ActionTree.wellFormed) &&
  (match st.inbound with
   | none => true
   | some f => !f.isEmpty && f.all ActionTree.wellFormed)

/-- Whether every trigger of the strategy avoids `IPField::TOS`. -/
def Strategy.noTOS (st : Strategy) : Bool :=
  (match st.outbound with
   | none => true
   | some f => f.all ActionTree.noTOS) &&
  (match st.inbound with
   | none => true
   | some f => f.all ActionTree.noTOS)

/-- Fuel needed by `parseForest` to reparse a printed forest. -/
def forestCost : Forest → Nat
  | [] => 0
  | t :: ts => t.root_action.depth + 1 + forestCost ts

theorem apply_eq_selected (st : Strategy) (p : Packet) (d : Direction) :
    st.apply p d =
      match st.selected d with
      | none => .ok [p]
      | some f => if f.isEmpty then .ok [p] else applyForest f p := by
  cases d <;> rfl

/-- C3: the claim states that a trigger constructed with `gas = 1` matches at
most once and then always returns `false`.  The code cannot exhibit this
behavior: both `TCPTrigger::matches` (tcp.rs lines 131-133) and
`IPTrigger::matches` (ip.rs lines 105-107) are `unimplemented!()` and panic
on every call, for every packet, whatever the gas budget. -/
theorem c3_matches_unimplemented_panics (f : TCPField) (g : IPField)
    (v w : String) (p : Packet) :
    (TCPTrigger.mk f v 1).matches p = .panic ∧
    (IPTrigger.new g w 1 0).matches p = .panic :=
  ⟨rfl, rfl⟩

/-- C4: the claim states that `FragmentAction::run` emits the left subtree's
results then the right's when `in_order` is true, and swapped when false.
The code cannot exhibit this: `FragmentAction::run` (fragment.rs lines 53-57)
is `unimplemented!()` and panics on every packet, for either value of
`in_order`. -/
theorem c4_fragment_run_unimplemented_panics (protocol fragment_size ov : Nat)
    (in_order : Bool) (l r : GenevaAction) (p : Packet) :
    (GenevaAction.fragment protocol fragment_size in_order ov l r).run p
      = .panic :=
  rfl

/-- C6: `Strategy::apply` on a strategy whose selected forest is `None` or
`Some` of an empty forest returns the single input packet unchanged, and in
particular the all-`None` strategy passes every packet through in both
directions. -/
theorem c6_pass_through_default (st : Strategy) (p : Packet) (d : Direction)
    (h : st.selected d = none ∨ st.selected d = some []) :
    st.apply p d = .ok [p] ∧
    Strategy.apply ⟨none, none⟩ p d = .ok [p] := by
  constructor
  · rw [apply_eq_selected]
    rcases h with h | h
    · rw [h]
    · rw [h]; rfl
  · cases d <;> rfl

theorem c6_pass_through_default_witness :
    Strategy.apply ⟨none, some []⟩ (Packet.new [0, 1]) Direction.Inbound
      = .ok [Packet.new [0, 1]] ∧
    Strategy.apply ⟨none, none⟩ (Packet.new [0, 1]) Direction.Inbound
      = .ok [Packet.new [0, 1]] :=
  c6_pass_through_default ⟨none, some []⟩ (Packet.new [0, 1]) Direction.Inbound
    (Or.inr rfl)

/-- C7: `SendAction::run` is the identity, `DropAction::run` discards,
and `DuplicateAction::run` deep-copies the packet, evaluates the left child
on the original and the right child on the (structurally equal) copy, and
concatenates the two result lists in order; in particular
`Duplicate(Send, Send)` yields two structurally equal copies of the input. -/
theorem c7_send_drop_duplicate (p : Packet) (l r : GenevaAction)
    (ls rs : List Packet) (hl : l.run p = .ok ls) (hr : r.run p = .ok rs) :
    GenevaAction.send.run p = .ok [p] ∧
    GenevaAction.drop.run p = .ok [] ∧
    (DuplicateAction.new .send .send).run p = .ok [p, p] ∧
    (DuplicateAction.new l r).run p = .ok (ls ++ rs) := by
  refine ⟨rfl, rfl, rfl, ?_⟩
  have hcopy : Packet.new p.as_slice = p := rfl
  show (match l.run p with
        | .ok lpackets =>
          match r.run (Packet.new p.as_slice) with
          | .ok rpackets => RResult.ok (lpackets ++ rpackets)
          | .err e => .err e
          | .panic => .panic
        | .err e => .err e
        | .panic => .panic) = .ok (ls ++ rs)
  rw [hl, hcopy, hr]

theorem c7_send_drop_duplicate_witness :
    GenevaAction.send.run (Packet.new [7]) = .ok [Packet.new [7]] ∧
    GenevaAction.drop.run (Packet.new [7]) = .ok [] ∧
    (DuplicateAction.new .send .send).run (Packet.new [7])
      = .ok [Packet.new [7], Packet.new [7]] ∧
    (DuplicateAction.new .drop .send).run (Packet.new [7])
      = .ok ([] ++ [Packet.new [7]]) :=
  c7_send_drop_duplicate (Packet.new [7]) .drop .send [] [Packet.new [7]]
    rfl rfl

/-- C8 counterexample: a `TamperAction` whose single child is the default
`Send` does not collapse its argument list; it renders with the trailing
comma form `(,)`, so its string is not the bare tamper head the claim
describes. -/
theorem c8_counterexample :
    (GenevaAction.tamper "TCP" "flags" "" .Corrupt .send).to_string
      = "tamper\x7bTCP:flags:corrupt\x7d(,)" ∧
    (GenevaAction.tamper "TCP" "flags" "" .Corrupt .send).to_string
      ≠ "tamper\x7bTCP:flags:corrupt\x7d" := by
  decide

/-- C8 (amended): `TamperAction::fmt` (tamper.rs lines 66-80) always renders
its single child inside a trailing-comma argument list, even when the child
is the default `Send` (giving `(,)`), while `DuplicateAction::fmt`
(actions/mod.rs lines 123-134) and `FragmentAction::fmt` (fragment.rs lines
59-77) collapse the argument list to nothing when both children are the
default `Send`. -/
theorem c8_tamper_keeps_argument_list (protocol field new_value : String)
    (mode : TamperMode) (inner : GenevaAction) (pr sz ov : Nat) (io : Bool) :
    (GenevaAction.tamper protocol field new_value mode inner).print
      = "tamper\x7b".data ++ protocol.data ++ ':' :: field.data
        ++ ':' :: mode.toStr.data
        ++ (match mode with | .Replace => ':' :: new_value.data | _ => [])
        ++ "\x7d(".data ++ inner.print ++ ",)".data ∧
    (DuplicateAction.new .send .send).print = "duplicate".data ∧
    (GenevaAction.fragment pr sz io ov .send .send).print
      = "fragment\x7b".data ++ natChars pr ++ ':' :: natChars sz
        ++ ':' :: (if io then "True".data else "False".data) ++ ['\x7d'] := by
  refine ⟨rfl, rfl, ?_⟩
  show "fragment\x7b".data ++ natChars pr ++ ':' :: natChars sz
      ++ ':' :: (if io then "True".data else "False".data) ++ '\x7d' :: []
    = _
  simp

/-- C2: the claim states that `parse_strategy` accepts every action form of
the grammar, including `fragment` and `tamper`, never panicking.  The code
cannot do this: `parse_action` (parser/mod.rs lines 105-135) only handles
`send`, `drop` and `duplicate`, and a grammar-valid `fragment` or `tamper`
action falls into its `_ => unreachable!()` arm, panicking instead of
returning a strategy. -/
theorem c2_fragment_tamper_hit_unreachable :
    parse_strategy "[TCP:flags:S]-fragment\x7b6:8:True\x7d-| \\/" = .panic ∧
    parse_strategy "[TCP:flags:S]-tamper\x7bTCP:flags:corrupt\x7d(,)-| \\/"
      = .panic ∧
    parse_strategy "[TCP:flags:SA]-duplicate(drop,)-| \\/"
      = .ok ⟨some [⟨.TCP ⟨.Flags, "SA", 0⟩, .duplicate .drop .send⟩], none⟩ := by
  decide

/-- C5: the claim states that a trigger text with a `:gas` suffix yields a
trigger whose `gas()` equals the suffixed number.  The code does not read the
gas token: `parse_trigger` (parser/mod.rs lines 86-99) passes a literal `0`
to both trigger constructors, so `[TCP:flags:S:3]` produces a trigger with
`gas() == 0`, not `3`. -/
theorem c5_gas_suffix_ignored :
    parse_strategy "[TCP:flags:S:3]-drop-| \\/"
      = .ok ⟨some [⟨.TCP ⟨.Flags, "S", 0⟩, .drop⟩], none⟩ ∧
    (GenevaTrigger.TCP ⟨.Flags, "S", 0⟩).gas = 0 ∧
    (GenevaTrigger.TCP ⟨.Flags, "S", 0⟩).gas ≠ 3 := by
  decide

theorem takeWhile_append_stop (p : Char → Bool) (xs : List Char) (y : Char)
    (ys : List Char) (hxs : ∀ x ∈ xs, p x = true) (hy : p y = false) :
    (xs ++ y :: ys).takeWhile p = xs ∧ (xs ++ y :: ys).dropWhile p = y :: ys := by
  induction xs with
  | nil => simp [List.takeWhile_cons, List.dropWhile_cons, hy]
  | cons x xs ih =>
    have hx : p x = true := hxs x (by simp)
    have ih2 := ih (fun a ha => hxs a (by simp [ha]))
    simp [List.takeWhile_cons, List.dropWhile_cons, hx, ih2.1, ih2.2]

theorem takeTok_app (p : Char → Bool) (xs : List Char) (y : Char)
    (ys : List Char) (hne : xs ≠ []) (hxs : ∀ x ∈ xs, p x = true)
    (hy : p y = false) :
    takeTok p (xs ++ y :: ys) = some (xs, y :: ys) := by
  obtain ⟨h1, h2⟩ := takeWhile_append_stop p xs y ys hxs hy
  unfold takeTok
  rw [h1, h2]
  simp [hne]

theorem takeTok_inv {p : Char → Bool} {cs tok rest : List Char}
    (h : takeTok p cs = some (tok, rest)) :
    tok ≠ [] ∧ ∀ c ∈ tok, p c = true := by
  unfold takeTok at h
  by_cases he : (cs.takeWhile p).isEmpty
  · rw [if_pos he] at h; cases h
  · rw [if_neg he] at h
    injection h with h
    injection h with h1 h2
    subst h1
    refine ⟨by simpa [List.isEmpty_iff] using he, ?_⟩
    intro c hc
    exact List.mem_takeWhile_imp hc

theorem tcp_field_chars (f : TCPField) :
    ∀ c ∈ (TCPField.toStr f).data, isFieldChar c = true := by
  cases f <;> decide

theorem ip_field_chars (f : IPField) :
    ∀ c ∈ (IPField.toStr f).data, isFieldChar c = true := by
  cases f <;> decide

theorem tcp_from_str_toStr (f : TCPField) :
    TCPField.from_str (TCPField.toStr f) = .ok f := by
  cases f <;> rfl

theorem ip_from_str_toStr (f : IPField) (h : f ≠ .TOS) :
    IPField.from_str (IPField.toStr f) = .ok f := by
  cases f <;> first | rfl | exact absurd rfl h

/-- C1 counterexample: two syntactically valid strategy texts on which
parsing then serializing does not return the input.  `duplicate(,)` is valid
per the grammar but serializes with the empty argument list collapsed, and
`[IP:TOS:1]` parses (only the uppercase spelling is accepted by
`IPField::from_str`) but serializes with the lowercase `tos`, which the
parser then even rejects. -/
theorem c1_counterexample :
    parse_strategy "[TCP:flags:SA]-duplicate(,)-| \\/"
      = .ok ⟨some [⟨.TCP ⟨.Flags, "SA", 0⟩, .duplicate .send .send⟩], none⟩ ∧
    Strategy.to_string
        ⟨some [⟨.TCP ⟨.Flags, "SA", 0⟩, .duplicate .send .send⟩], none⟩
      ≠ "[TCP:flags:SA]-duplicate(,)-| \\/" ∧
    parse_strategy "[IP:TOS:1]-drop-| \\/"
      = .ok ⟨some [⟨.IP ⟨.TOS, "1", 0, 0⟩, .drop⟩], none⟩ ∧
    Strategy.to_string ⟨some [⟨.IP ⟨.TOS, "1", 0, 0⟩, .drop⟩], none⟩
      ≠ "[IP:TOS:1]-drop-| \\/" ∧
    parse_strategy
        (Strategy.to_string ⟨some [⟨.IP ⟨.TOS, "1", 0, 0⟩, .drop⟩], none⟩)
      = .err (.Parse "tos") := by
  decide



theorem expects_single (c : Char) (cs : List Char) :
    expects [c] (c :: cs) = some cs := by simp [expects]

theorem parseTriggerText_steps (proto field value : List Char)
    (rest : List Char)
    (hp : proto ≠ []) (hpc : ∀ c ∈ proto, isProtoChar c = true)
    (hf : field ≠ []) (hfc : ∀ c ∈ field, isFieldChar c = true)
    (hv : value ≠ []) (hvc : ∀ c ∈ value, isValueChar c = true) :
    parseTriggerText ('[' :: proto ++ ':' :: field ++ ':' :: value ++ ']' :: rest)
      = some (⟨⟨proto⟩, ⟨field⟩, ⟨value⟩, none⟩, rest) := by
  have h1 : takeTok isProtoChar (proto ++ ':' :: (field ++ ':' :: (value ++ ']' :: rest)))
      = some (proto, ':' :: (field ++ ':' :: (value ++ ']' :: rest))) :=
    takeTok_app _ _ _ _ hp hpc (by decide)
  have h2 : takeTok isFieldChar (field ++ ':' :: (value ++ ']' :: rest))
      = some (field, ':' :: (value ++ ']' :: rest)) :=
    takeTok_app _ _ _ _ hf hfc (by decide)
  have h3 : takeTok isValueChar (value ++ ']' :: rest)
      = some (value, ']' :: rest) :=
    takeTok_app _ _ _ _ hv hvc (by decide)
  simp [parseTriggerText, expects_single, h1, h2, h3]

theorem goodValue_parts {v : String} (hv : goodValue v = true) :
    v.data ≠ [] ∧ ∀ c ∈ v.data, isValueChar c = true := by
  simp only [goodValue, Bool.and_eq_true, List.all_eq_true] at hv
  exact ⟨by simpa using hv.1, hv.2⟩

theorem parseTriggerText_print (g : GenevaTrigger) (hg : g.wellFormed = true)
    (rest : List Char) :
    parseTriggerText (g.print ++ rest)
      = some (⟨g.protocol, g.field, g.valueOf, none⟩, rest) := by
  cases g with
  | TCP t =>
    obtain ⟨f, v, gas⟩ := t
    simp only [GenevaTrigger.wellFormed, GenevaTrigger.gas, GenevaTrigger.tagOf,
      GenevaTrigger.valueOf, Bool.and_eq_true, beq_iff_eq] at hg
    obtain ⟨⟨hgas, -⟩, hval⟩ := hg
    obtain ⟨hvne, hvc⟩ := goodValue_parts hval
    subst hgas
    have hsteps := parseTriggerText_steps "TCP".data (TCPField.toStr f).data
      v.data rest (by decide) (by decide) (by cases f <;> decide)
      (tcp_field_chars f) hvne hvc
    simpa [GenevaTrigger.print, GenevaTrigger.protocol, GenevaTrigger.field,
      GenevaTrigger.valueOf, GenevaTrigger.gas, List.append_assoc] using hsteps
  | IP t =>
    obtain ⟨f, v, gas, tag⟩ := t
    simp only [GenevaTrigger.wellFormed, GenevaTrigger.gas, GenevaTrigger.tagOf,
      GenevaTrigger.valueOf, Bool.and_eq_true, beq_iff_eq] at hg
    obtain ⟨⟨hgas, htag⟩, hval⟩ := hg
    obtain ⟨hvne, hvc⟩ := goodValue_parts hval
    subst hgas; subst htag
    have hsteps := parseTriggerText_steps "IP".data (IPField.toStr f).data
      v.data rest (by decide) (by decide) (by cases f <;> decide)
      (ip_field_chars f) hvne hvc
    simpa [GenevaTrigger.print, GenevaTrigger.protocol, GenevaTrigger.field,
      GenevaTrigger.valueOf, GenevaTrigger.gas, List.append_assoc] using hsteps

theorem parse_trigger_raw_tcp (f : TCPField) (v : String) :
    parse_trigger ⟨"TCP", TCPField.toStr f, v, none⟩ = .ok (.TCP ⟨f, v, 0⟩) := by
  cases f <;> rfl

theorem parse_trigger_raw_ip (f : IPField) (v : String) (h : f ≠ .TOS) :
    parse_trigger ⟨"IP", IPField.toStr f, v, none⟩ = .ok (.IP ⟨f, v, 0, 0⟩) := by
  cases f <;> first | rfl | exact absurd rfl h

theorem parse_trigger_print (g : GenevaTrigger) (hg : g.wellFormed = true)
    (ht : g.noTOS = true) :
    parse_trigger ⟨g.protocol, g.field, g.valueOf, none⟩ = .ok g := by
  cases g with
  | TCP t =>
    obtain ⟨f, v, gas⟩ := t
    simp only [GenevaTrigger.wellFormed, GenevaTrigger.gas, Bool.and_eq_true,
      beq_iff_eq] at hg
    obtain ⟨⟨hgas, -⟩, -⟩ := hg
    subst hgas
    exact parse_trigger_raw_tcp f v
  | IP t =>
    obtain ⟨f, v, gas, tag⟩ := t
    simp only [GenevaTrigger.wellFormed, GenevaTrigger.gas, GenevaTrigger.tagOf,
      Bool.and_eq_true, beq_iff_eq] at hg
    obtain ⟨⟨hgas, htag⟩, -⟩ := hg
    simp only [GenevaTrigger.noTOS, Bool.not_eq_true', beq_eq_false_iff_ne] at ht
    subst hgas; subst htag
    exact parse_trigger_raw_ip f v ht



theorem expects_self_app (lit cs : List Char) :
    expects lit (lit ++ cs) = some cs := by
  induction lit with
  | nil => rfl
  | cons l ls ih => simp [expects, ih]

theorem parseable_print_nil {a : GenevaAction} (ha : a.parseable = true) :
    a.print = [] ↔ a = .send := by
  cases a with
  | send => simp [GenevaAction.print]
  | drop => simp [GenevaAction.print]
  | duplicate l r =>
    simp only [GenevaAction.print]
    constructor
    · intro h
      rw [List.append_eq_nil] at h
      exact absurd h.1 (by decide)
    · intro h; cases h
  | fragment p s io ov l r => simp [GenevaAction.parseable] at ha
  | tamper p f v m inner => simp [GenevaAction.parseable] at ha

theorem parseActionText_print (a : GenevaAction) (ha : a.parseable = true)
    (c : Char) (hc : c = ',' ∨ c = ')' ∨ c = '-') (rest : List Char)
    (fuel : Nat) (hfuel : a.depth ≤ fuel) :
    ∃ ra, parseActionText fuel (a.print ++ c :: rest) = some (ra, c :: rest)
      ∧ parse_action ra = .ok a := by
  induction a generalizing c rest fuel with
  | send =>
    cases fuel with
    | zero => simp [GenevaAction.depth] at hfuel
    | succ n =>
      refine ⟨.send, ?_, rfl⟩
      rcases hc with rfl | rfl | rfl <;> rfl
  | drop =>
    cases fuel with
    | zero => simp [GenevaAction.depth] at hfuel
    | succ n =>
      refine ⟨.drop, ?_, rfl⟩
      rcases hc with rfl | rfl | rfl <;> rfl
  | duplicate l r ihl ihr =>
    simp only [GenevaAction.parseable, Bool.and_eq_true] at ha
    obtain ⟨hl, hr⟩ := ha
    cases fuel with
    | zero => simp [GenevaAction.depth] at hfuel
    | succ n =>
      have hln : l.depth ≤ n := by
        simp only [GenevaAction.depth] at hfuel; omega
      have hrn : r.depth ≤ n := by
        simp only [GenevaAction.depth] at hfuel; omega
      by_cases hemp : l.print.length + r.print.length = 0
      · have hl0 : l.print = [] := by
          have := Nat.eq_zero_of_add_eq_zero_right hemp
          exact List.length_eq_zero.mp this
        have hr0 : r.print = [] := by
          have := Nat.eq_zero_of_add_eq_zero_left hemp
          exact List.length_eq_zero.mp this
        have hlsend : l = .send := (parseable_print_nil hl).mp hl0
        have hrsend : r = .send := (parseable_print_nil hr).mp hr0
        subst hlsend; subst hrsend
        refine ⟨.duplicate .send .send, ?_, rfl⟩
        rcases hc with rfl | rfl | rfl <;> rfl
      · obtain ⟨ral, hparsel, hconvl⟩ :=
          ihl hl ',' (Or.inl rfl) (r.print ++ ')' :: c :: rest) n hln
        obtain ⟨rar, hparser, hconvr⟩ :=
          ihr hr ')' (Or.inr (Or.inl rfl)) (c :: rest) n hrn
        refine ⟨.duplicate ral rar, ?_, ?_⟩
        · simp only [GenevaAction.print, if_neg hemp]
          simp [parseActionText, expects, expects_self_app, expects_single,
            hparsel, hparser, List.append_assoc]
        · simp [parse_action, hconvl, hconvr, DuplicateAction.new]
  | fragment p s io ov l r ihl ihr => simp [GenevaAction.parseable] at ha
  | tamper p f v m inner ih => simp [GenevaAction.parseable] at ha



theorem parseActionTreeText_print (t : ActionTree) (hw : t.wellFormed = true)
    (ht : t.noTOS = true) (rest : List Char) (fuel : Nat)
    (hfuel : t.root_action.depth ≤ fuel) :
    ∃ rt, parseActionTreeText fuel (t.print ++ rest) = some (rt, rest)
      ∧ parse_action_tree rt = .ok t := by
  obtain ⟨g, a⟩ := t
  simp only [ActionTree.wellFormed, Bool.and_eq_true] at hw
  obtain ⟨hg, ha⟩ := hw
  have htrig := parseTriggerText_print g hg
    ('-' :: (a.print ++ '-' :: '|' :: rest))
  obtain ⟨ra, hpa, hca⟩ := parseActionText_print a ha '-'
    (Or.inr (Or.inr rfl)) ('|' :: rest) fuel hfuel
  refine ⟨⟨⟨g.protocol, g.field, g.valueOf, none⟩, ra⟩, ?_, ?_⟩
  · show parseActionTreeText fuel
        ((g.print ++ '-' :: a.print ++ "-|".data) ++ rest) = _
    simp [parseActionTreeText, List.append_assoc, htrig, expects_single,
      expects, hpa]
  · have hgok := parse_trigger_print g hg ht
    simp [parse_action_tree, hgok, hca]



theorem tree_print_head (t : ActionTree) :
    ∃ cs, t.print = '[' :: cs :=
  ⟨_, rfl⟩

theorem parseForest_ws (fuel : Nat) (c : Char) (hc : isWsChar c = true)
    (cs : List Char) :
    parseForest fuel (c :: cs) = parseForest fuel cs := by
  cases fuel with
  | zero => rfl
  | succ n => simp [parseForest, List.dropWhile_cons, hc]

theorem parseForest_print_ob (f : Forest)
    (hw : ∀ t ∈ f, t.wellFormed = true) (hn : ∀ t ∈ f, t.noTOS = true)
    (tailc : List Char) (htail : tailc = [] ∨ ∃ cs, tailc = '\\' :: cs)
    (fuel : Nat) (hfuel : forestCost f < fuel) :
    ∃ rts, parseForest fuel
        ((f.map (fun t => t.print ++ [' '])).flatten ++ tailc)
      = some (rts, tailc) ∧ parseTrees rts = .ok f := by
  induction f generalizing fuel with
  | nil =>
    refine ⟨[], ?_, rfl⟩
    cases fuel with
    | zero => simp [forestCost] at hfuel
    | succ n =>
      rcases htail with rfl | ⟨cs, rfl⟩ <;> rfl
  | cons t ts ih =>
    cases fuel with
    | zero => simp [forestCost] at hfuel
    | succ n =>
      have hwt := hw t (by simp)
      have hnt := hn t (by simp)
      have hdep : t.root_action.depth ≤ n + 1 := by
        simp only [forestCost] at hfuel; omega
      obtain ⟨rt, hpt, hct⟩ := parseActionTreeText_print t hwt hnt
        (' ' :: ((ts.map (fun t => t.print ++ [' '])).flatten ++ tailc))
        (n + 1) hdep
      obtain ⟨rts, hpts, hcts⟩ := ih (fun x hx => hw x (by simp [hx]))
        (fun x hx => hn x (by simp [hx])) n
        (by simp only [forestCost] at hfuel; omega)
      obtain ⟨body, hhead⟩ := tree_print_head t
      rw [hhead] at hpt
      simp only [List.cons_append] at hpt
      have hws := parseForest_ws n ' ' rfl
        ((ts.map (fun t => t.print ++ [' '])).flatten ++ tailc)
      refine ⟨rt :: rts, ?_, ?_⟩
      · simp only [List.map_cons, List.flatten_cons, List.append_assoc,
          hhead, List.cons_append, List.singleton_append]
        have hbr : isWsChar '[' = false := rfl
        simp [parseForest, List.dropWhile_cons, hbr, hpt, hws, hpts,
          List.append_assoc]
      · simp [parseTrees, hct, hcts]


theorem parseForest_print_ib (f : Forest)
    (hw : ∀ t ∈ f, t.wellFormed = true) (hn : ∀ t ∈ f, t.noTOS = true)
    (fuel : Nat) (hfuel : forestCost f < fuel) :
    ∃ rts, parseForest fuel ((f.map (fun t => ' ' :: t.print)).flatten)
      = some (rts, []) ∧ parseTrees rts = .ok f := by
  induction f generalizing fuel with
  | nil =>
    refine ⟨[], ?_, rfl⟩
    cases fuel with
    | zero => simp [forestCost] at hfuel
    | succ n => rfl
  | cons t ts ih =>
    cases fuel with
    | zero => simp [forestCost] at hfuel
    | succ n =>
      have hwt := hw t (by simp)
      have hnt := hn t (by simp)
      have hdep : t.root_action.depth ≤ n + 1 := by
        simp only [forestCost] at hfuel; omega
      obtain ⟨rt, hpt, hct⟩ := parseActionTreeText_print t hwt hnt
        ((ts.map (fun t => ' ' :: t.print)).flatten) (n + 1) hdep
      obtain ⟨rts, hpts, hcts⟩ := ih (fun x hx => hw x (by simp [hx]))
        (fun x hx => hn x (by simp [hx])) n
        (by simp only [forestCost] at hfuel; omega)
      obtain ⟨body, hhead⟩ := tree_print_head t
      rw [hhead] at hpt
      simp only [List.cons_append] at hpt
      have hws := parseForest_ws (n + 1) ' ' rfl
        ('[' :: (body ++ (ts.map (fun t => ' ' :: t.print)).flatten))
      refine ⟨rt :: rts, ?_, ?_⟩
      · simp only [List.map_cons, List.flatten_cons, List.append_assoc,
          hhead, List.cons_append, List.singleton_append]
        have hbr : isWsChar '[' = false := rfl
        have hsp : isWsChar ' ' = true := rfl
        simp [parseForest, List.dropWhile_cons, hbr, hsp, hpt, hpts,
          List.append_assoc]
      · simp [parseTrees, hct, hcts]



theorem depth_le_print_len (a : GenevaAction) (ha : a.parseable = true) :
    a.depth ≤ a.print.length + 1 := by
  induction a with
  | send => decide
  | drop => decide
  | duplicate l r ihl ihr =>
    simp only [GenevaAction.parseable, Bool.and_eq_true] at ha
    obtain ⟨hl, hr⟩ := ha
    have il := ihl hl
    have ir := ihr hr
    simp only [GenevaAction.depth, GenevaAction.print]
    have h9 : ("duplicate".data).length = 9 := by decide
    by_cases hemp : l.print.length + r.print.length = 0
    · rw [if_pos hemp]
      simp only [List.length_append, h9]
      omega
    · rw [if_neg hemp]
      simp only [List.length_append, List.length_cons, h9]
      omega
  | fragment p s io ov l r ihl ihr => simp [GenevaAction.parseable] at ha
  | tamper p f v m inner ih => simp [GenevaAction.parseable] at ha

theorem depth_lt_tree_print_len (t : ActionTree) (hw : t.wellFormed = true) :
    t.root_action.depth + 1 ≤ t.print.length := by
  obtain ⟨g, a⟩ := t
  simp only [ActionTree.wellFormed, Bool.and_eq_true] at hw
  have hd := depth_le_print_len a hw.2
  show a.depth + 1 ≤ (ActionTree.print ⟨g, a⟩).length
  simp only [ActionTree.print, List.length_append, List.length_cons]
  have h2 : ("-|".data).length = 2 := by decide
  omega

theorem forestCost_le_ob (f : Forest) (hw : ∀ t ∈ f, t.wellFormed = true) :
    forestCost f ≤ ((f.map (fun t => t.print ++ [' '])).flatten).length := by
  induction f with
  | nil => simp [forestCost]
  | cons t ts ih =>
    have hwt := depth_lt_tree_print_len t (hw t (by simp))
    have hts := ih (fun x hx => hw x (by simp [hx]))
    simp only [forestCost, List.map_cons, List.flatten_cons,
      List.length_append, List.length_cons, List.length_nil]
    omega

theorem forestCost_le_ib (f : Forest) (hw : ∀ t ∈ f, t.wellFormed = true) :
    forestCost f ≤ ((f.map (fun t => ' ' :: t.print)).flatten).length := by
  induction f with
  | nil => simp [forestCost]
  | cons t ts ih =>
    have hwt := depth_lt_tree_print_len t (hw t (by simp))
    have hts := ih (fun x hx => hw x (by simp [hx]))
    simp only [forestCost, List.map_cons, List.flatten_cons,
      List.length_append, List.length_cons]
    omega

theorem strategy_print_eq (ob ib : Option Forest) :
    Strategy.print ⟨ob, ib⟩
      = ((ob.getD []).map (fun t => t.print ++ [' '])).flatten
        ++ "\\/".data ++ ((ib.getD []).map (fun t => ' ' :: t.print)).flatten := by
  cases ob <;> cases ib <;> simp [Strategy.print]

theorem normalize_getD (o : Option Forest) (h : o ≠ some []) :
    (if (o.getD []).isEmpty then none else some (o.getD [])) = o := by
  cases o with
  | none => rfl
  | some f =>
    cases f with
    | nil => exact absurd rfl h
    | cons x xs => rfl

theorem wellFormed_parts {ob ib : Option Forest}
    (h : Strategy.wellFormed ⟨ob, ib⟩ = true) :
    ob ≠ some [] ∧ ib ≠ some [] ∧
    (∀ t ∈ ob.getD [], t.wellFormed = true) ∧
    (∀ t ∈ ib.getD [], t.wellFormed = true) := by
  cases ob <;> cases ib <;>
    simp [Strategy.wellFormed, List.all_eq_true, List.isEmpty_iff] at h ⊢ <;>
    tauto

theorem noTOS_parts {ob ib : Option Forest}
    (h : Strategy.noTOS ⟨ob, ib⟩ = true) :
    (∀ t ∈ ob.getD [], t.noTOS = true) ∧
    (∀ t ∈ ib.getD [], t.noTOS = true) := by
  cases ob <;> cases ib <;>
    simp [Strategy.noTOS, List.all_eq_true] at h ⊢ <;> tauto



theorem parse_print_strategy (st : Strategy) (hw : st.wellFormed = true)
    (hn : st.noTOS = true) :
    parse_strategy st.to_string = .ok st := by
  obtain ⟨ob, ib⟩ := st
  obtain ⟨hobne, hibne, hobw, hibw⟩ := wellFormed_parts hw
  obtain ⟨hobn, hibn⟩ := noTOS_parts hn
  have hprint := strategy_print_eq ob ib
  have hcob : forestCost (ob.getD [])
      < (Strategy.print ⟨ob, ib⟩).length + 1 := by
    have h1 := forestCost_le_ob (ob.getD []) hobw
    rw [hprint]
    simp only [List.length_append]
    omega
  have hcib : forestCost (ib.getD [])
      < (Strategy.print ⟨ob, ib⟩).length + 1 := by
    have h1 := forestCost_le_ib (ib.getD []) hibw
    rw [hprint]
    simp only [List.length_append]
    omega
  obtain ⟨rob, hpob, hccob⟩ := parseForest_print_ob (ob.getD []) hobw hobn
    ("\\/".data ++ ((ib.getD []).map (fun t => ' ' :: t.print)).flatten)
    (Or.inr ⟨_, rfl⟩) ((Strategy.print ⟨ob, ib⟩).length + 1) hcob
  obtain ⟨rib, hpib, hccib⟩ := parseForest_print_ib (ib.getD []) hibw hibn
    ((Strategy.print ⟨ob, ib⟩).length + 1) hcib
  show parse_strategy ⟨Strategy.print ⟨ob, ib⟩⟩ = .ok ⟨ob, ib⟩
  simp only [parse_strategy, pestParse]
  set F := (Strategy.print ⟨ob, ib⟩).length + 1 with hF
  rw [hprint]
  have hdata : "\\/".data = ['\\', '/'] := rfl
  rw [hdata, List.append_assoc]
  rw [hdata] at hpob
  rw [hpob]
  simp only [Option.bind_eq_bind, Option.some_bind, expects_self_app]
  rw [hpib]
  simp only [Option.bind_eq_bind, Option.some_bind, List.isEmpty_nil,
    if_true]
  simp only [parse_strategy_raw, hccob, hccib]
  rw [normalize_getD ob hobne, normalize_getD ib hibne]



theorem parseTriggerText_good {cs : List Char} {rt : RawTrigger}
    {rest : List Char} (h : parseTriggerText cs = some (rt, rest)) :
    goodValue rt.value = true := by
  simp only [parseTriggerText, Option.bind_eq_bind, Option.bind_eq_some] at h
  obtain ⟨cs1, h1, p2, h2, cs3, h3, p4, h4, cs5, h5, p6, h6, hrest⟩ := h
  obtain ⟨hne, hall⟩ := takeTok_inv h6
  have hval : goodValue ⟨p6.1⟩ = true := by
    simp only [goodValue, Bool.and_eq_true, List.all_eq_true]
    constructor
    · simpa [List.isEmpty_iff] using hne
    · exact hall
  revert hrest
  split
  · intro hrest; cases hrest
  · intro hrest
    split at hrest
    · simp only [Option.bind_eq_bind, Option.bind_eq_some] at hrest
      obtain ⟨p8, h8, cs9, h9, h10⟩ := hrest
      cases h10
      exact hval
    · split at hrest
      · cases hrest
        exact hval
      · cases hrest


theorem parse_trigger_shape {rt : RawTrigger} {g : GenevaTrigger}
    (h : parse_trigger rt = .ok g) :
    g.gas = 0 ∧ g.tagOf = 0 ∧ g.valueOf = rt.value := by
  unfold parse_trigger at h
  split at h
  · split at h
    · cases h
      exact ⟨rfl, rfl, rfl⟩
    · cases h
    · cases h
  · split at h
    · cases h
      exact ⟨rfl, rfl, rfl⟩
    · cases h
    · cases h
  · cases h

theorem parse_action_parseable {ra : RawAction} {a : GenevaAction}
    (h : parse_action ra = .ok a) : a.parseable = true := by
  induction ra generalizing a with
  | send => cases h; rfl
  | drop => cases h; rfl
  | duplicate l r ihl ihr =>
    unfold parse_action at h
    split at h
    · split at h
      · cases h
        simp [GenevaAction.parseable, DuplicateAction.new, *]
      · cases h
      · cases h
    · cases h
    · cases h
  | fragment p s io l r ihl ihr => cases h
  | tamper p f m v inner ih => cases h

theorem parse_action_tree_shape {rt : RawActionTree} {t : ActionTree}
    (h : parse_action_tree rt = .ok t) :
    parse_trigger rt.trigger = .ok t.trigger ∧
    parse_action rt.action = .ok t.root_action := by
  unfold parse_action_tree at h
  split at h
  · split at h
    · cases h
      exact ⟨by assumption, by assumption⟩
    · cases h
    · cases h
  · cases h
  · cases h

theorem parseTrees_wellFormed {ts : List RawActionTree} {l : List ActionTree}
    (h : parseTrees ts = .ok l)
    (hg : ∀ rt ∈ ts, goodValue rt.trigger.value = true) :
    ∀ t ∈ l, t.wellFormed = true := by
  induction ts generalizing l with
  | nil =>
    cases h
    intro t ht
    cases ht
  | cons x xs ih =>
    unfold parseTrees at h
    cases hax : parse_action_tree x with
    | ok a1 =>
      rw [hax] at h
      cases hrest : parseTrees xs with
      | ok l1 =>
        rw [hrest] at h
        cases h
        intro t ht
        rcases List.mem_cons.mp ht with rfl | hmem
        · obtain ⟨htr, hac⟩ := parse_action_tree_shape hax
          obtain ⟨hgas, htag, hveq⟩ := parse_trigger_shape htr
          have hgv := hg x (by simp)
          simp only [ActionTree.wellFormed, GenevaTrigger.wellFormed,
            Bool.and_eq_true, beq_iff_eq]
          refine ⟨⟨⟨hgas, htag⟩, ?_⟩, parse_action_parseable hac⟩
          rw [hveq]
          exact hgv
        · exact ih hrest (fun rt hrt => hg rt (by simp [hrt])) t hmem
      | err e =>
        rw [hrest] at h
        cases h
      | panic =>
        rw [hrest] at h
        cases h
    | err e =>
      rw [hax] at h
      cases h
    | panic =>
      rw [hax] at h
      cases h


theorem parseActionTreeText_good {fuel : Nat} {cs : List Char}
    {rt : RawActionTree} {rest : List Char}
    (h : parseActionTreeText fuel cs = some (rt, rest)) :
    goodValue rt.trigger.value = true := by
  simp only [parseActionTreeText, Option.bind_eq_bind, Option.bind_eq_some] at h
  obtain ⟨p1, h1, cs2, h2, p3, h3, cs4, h4, hfin⟩ := h
  cases hfin
  exact parseTriggerText_good h1

theorem parseForest_good {fuel : Nat} {cs : List Char}
    {rts : List RawActionTree} {rest : List Char}
    (h : parseForest fuel cs = some (rts, rest)) :
    ∀ rt ∈ rts, goodValue rt.trigger.value = true := by
  induction fuel generalizing cs rts rest with
  | zero => cases h
  | succ n ih =>
    unfold parseForest at h
    split at h
    · cases h
      intro rt hrt
      cases hrt
    · split at h
      · simp only [Option.bind_eq_bind, Option.bind_eq_some] at h
        obtain ⟨p1, h1, p2, h2, hfin⟩ := h
        cases hfin
        intro rt hrt
        rcases List.mem_cons.mp hrt with rfl | hmem
        · exact parseActionTreeText_good h1
        · exact ih h2 rt hmem
      · cases h
        intro rt hrt
        cases hrt

theorem pestParse_good {s : String} {raw : RawStrategy}
    (h : pestParse s = some raw) :
    (∀ rt ∈ raw.outbound, goodValue rt.trigger.value = true) ∧
    (∀ rt ∈ raw.inbound, goodValue rt.trigger.value = true) := by
  simp only [pestParse, Option.bind_eq_bind, Option.bind_eq_some] at h
  obtain ⟨p1, h1, cs2, h2, p3, h3, hfin⟩ := h
  split at hfin
  · cases hfin
    exact ⟨parseForest_good h1, parseForest_good h3⟩
  · cases hfin

theorem forest_opt_wf (l : List ActionTree)
    (hw : ∀ t ∈ l, t.wellFormed = true) :
    (match (if l.isEmpty then none else some l : Option Forest) with
     | none => true
     | some f => !f.isEmpty && f.all ActionTree.wellFormed) = true := by
  cases l with
  | nil => rfl
  | cons x xs =>
    simp only [List.isEmpty_cons, if_neg]
    simp [List.all_eq_true]
    exact ⟨hw x (by simp), fun t ht => hw t (by simp [ht])⟩

theorem parse_strategy_wellFormed {s : String} {st : Strategy}
    (h : parse_strategy s = .ok st) : st.wellFormed = true := by
  unfold parse_strategy at h
  cases hp : pestParse s with
  | none =>
    rw [hp] at h
    cases h
  | some raw =>
    rw [hp] at h
    dsimp only at h
    obtain ⟨hgob, hgib⟩ := pestParse_good hp
    unfold parse_strategy_raw at h
    cases hob : parseTrees raw.outbound with
    | ok ob =>
      rw [hob] at h
      cases hib : parseTrees raw.inbound with
      | ok ib =>
        rw [hib] at h
        cases h
        have hwo := parseTrees_wellFormed hob hgob
        have hwi := parseTrees_wellFormed hib hgib
        simp only [Strategy.wellFormed, Bool.and_eq_true]
        exact ⟨forest_opt_wf ob hwo, forest_opt_wf ib hwi⟩
      | err e =>
        rw [hib] at h
        cases h
      | panic =>
        rw [hib] at h
        cases h
    | err e =>
      rw [hob] at h
      cases h
    | panic =>
      rw [hob] at h
      cases h



theorem tcp_from_str_total (s : String) :
    (∃ f, TCPField.from_str s = .ok f) ∨
    TCPField.from_str s = .err (.Parse s) := by
  unfold TCPField.from_str
  split <;> first | exact Or.inl ⟨_, rfl⟩ | exact Or.inr rfl

theorem ip_from_str_total (s : String) :
    (∃ f, IPField.from_str s = .ok f) ∨
    IPField.from_str s = .err (.Parse s) := by
  unfold IPField.from_str
  split <;> first | exact Or.inl ⟨_, rfl⟩ | exact Or.inr rfl

theorem parse_trigger_tcp_err {rt : RawTrigger} {e : Error}
    (hp : lowerStr rt.protocol = "tcp")
    (hf : TCPField.from_str rt.field = .err e) :
    parse_trigger rt = .err e := by
  unfold parse_trigger
  rw [hp, hf]
  rfl

theorem parse_trigger_ip_err {rt : RawTrigger} {e : Error}
    (hp : lowerStr rt.protocol = "ip")
    (hf : IPField.from_str rt.field = .err e) :
    parse_trigger rt = .err e := by
  unfold parse_trigger
  rw [hp, hf]
  rfl

theorem parse_action_tree_trigger_err {rt : RawActionTree} {e : Error}
    (h : parse_trigger rt.trigger = .err e) :
    parse_action_tree rt = .err e := by
  unfold parse_action_tree
  rw [h]

theorem parseTrees_mem_fail {ts : List RawActionTree} {t : RawActionTree}
    (ht : t ∈ ts) (hfail : ∀ a, parse_action_tree t ≠ .ok a) :
    ∀ l, parseTrees ts ≠ .ok l := by
  induction ts with
  | nil => cases ht
  | cons x xs ih =>
    intro l h
    unfold parseTrees at h
    cases hax : parse_action_tree x with
    | ok a1 =>
      rw [hax] at h
      rcases List.mem_cons.mp ht with rfl | hmem
      · exact hfail a1 hax
      · cases hrest : parseTrees xs with
        | ok l1 => exact ih hmem l1 hrest
        | err e =>
          rw [hrest] at h
          cases h
        | panic =>
          rw [hrest] at h
          cases h
    | err e =>
      rw [hax] at h
      cases h
    | panic =>
      rw [hax] at h
      cases h

theorem parse_strategy_raw_fail {raw : RawStrategy} {t : RawActionTree}
    (ht : t ∈ raw.outbound ++ raw.inbound)
    (hfail : ∀ a, parse_action_tree t ≠ .ok a) :
    (parse_strategy_raw raw).isOk = false := by
  unfold parse_strategy_raw
  rcases List.mem_append.mp ht with hmem | hmem
  · cases hob : parseTrees raw.outbound with
    | ok l => exact absurd hob (parseTrees_mem_fail hmem hfail l)
    | err e => rfl
    | panic => rfl
  · cases hob : parseTrees raw.outbound with
    | ok l =>
      cases hib : parseTrees raw.inbound with
      | ok l2 => exact absurd hib (parseTrees_mem_fail hmem hfail l2)
      | err e => rfl
      | panic => rfl
    | err e => rfl
    | panic => rfl

theorem norm_ne_some_nil (l : List ActionTree) :
    (if l.isEmpty then none else some l : Option Forest) ≠ some [] := by
  cases l <;> simp


/-- C1 (amended): the round-trip claim as stated fails (see
`c1_counterexample`): the serializer collapses elidable empty argument
lists, the parser ignores `:gas` suffixes, and the IP `TOS` field parses
only in its uppercase spelling while printing lowercase.  What holds is
that serialization is a stable canonical form: for every strategy obtained
from a successful `parse_strategy`, provided it uses no IP `TOS` trigger,
parsing its `to_string()` rendering succeeds and reconstructs the very same
strategy. -/
theorem c1_roundtrip_canonical (s : String) (st : Strategy)
    (h : parse_strategy s = .ok st) (hn : st.noTOS = true) :
    parse_strategy st.to_string = .ok st :=
  parse_print_strategy st (parse_strategy_wellFormed h) hn

theorem c1_roundtrip_canonical_witness :
    parse_strategy
        (Strategy.to_string ⟨some [⟨.TCP ⟨.Flags, "SA", 0⟩, .drop⟩], none⟩)
      = .ok ⟨some [⟨.TCP ⟨.Flags, "SA", 0⟩, .drop⟩], none⟩ :=
  c1_roundtrip_canonical "[TCP:flags:SA]-drop-| \\/"
    ⟨some [⟨.TCP ⟨.Flags, "SA", 0⟩, .drop⟩], none⟩ (by decide) (by decide)

/-- C9: a trigger whose field token is outside the enumerated field set of
its protocol makes construction fail with a `ParseError` carrying the
offending field text, and the whole strategy is rejected: `parse_strategy`
never returns a strategy for such input; concretely, parsing
`[TCP:bogus:S]-drop-| \/` yields `Err(Parse("bogus"))`. -/
theorem c9_unknown_field_rejected (rt : RawTrigger) (raw : RawStrategy)
    (t : RawActionTree) :
    (lowerStr rt.protocol = "tcp" →
      (∀ f : TCPField, TCPField.from_str rt.field ≠ .ok f) →
      parse_trigger rt = .err (.Parse rt.field)) ∧
    (lowerStr rt.protocol = "ip" →
      (∀ f : IPField, IPField.from_str rt.field ≠ .ok f) →
      parse_trigger rt = .err (.Parse rt.field)) ∧
    (t ∈ raw.outbound ++ raw.inbound →
      parse_trigger t.trigger = .err (.Parse t.trigger.field) →
      (parse_strategy_raw raw).isOk = false) ∧
    parse_strategy "[TCP:bogus:S]-drop-| \\/" = .err (.Parse "bogus") := by
  refine ⟨?_, ?_, ?_, by decide⟩
  · intro hp hno
    rcases tcp_from_str_total rt.field with ⟨f, hf⟩ | hf
    · exact absurd hf (hno f)
    · exact parse_trigger_tcp_err hp hf
  · intro hp hno
    rcases ip_from_str_total rt.field with ⟨f, hf⟩ | hf
    · exact absurd hf (hno f)
    · exact parse_trigger_ip_err hp hf
  · intro hmem herr
    refine parse_strategy_raw_fail hmem ?_
    intro a ha
    rw [parse_action_tree_trigger_err herr] at ha
    cases ha

theorem c9_unknown_field_rejected_witness :
    parse_trigger ⟨"TCP", "bogus", "S", none⟩ = .err (.Parse "bogus") ∧
    (parse_strategy_raw
        ⟨[⟨⟨"TCP", "bogus", "S", none⟩, .drop⟩], []⟩).isOk = false ∧
    parse_strategy "[TCP:bogus:S]-drop-| \\/" = .err (.Parse "bogus") := by
  have h := c9_unknown_field_rejected ⟨"TCP", "bogus", "S", none⟩
    ⟨[⟨⟨"TCP", "bogus", "S", none⟩, .drop⟩], []⟩
    ⟨⟨"TCP", "bogus", "S", none⟩, .drop⟩
  have h1 := h.1 (by decide) (by decide)
  exact ⟨h1, h.2.2.1 (by decide) h1, h.2.2.2⟩

/-- C10: the parser normalizes an empty forest on either side of the
separator to `None`: a successfully parsed strategy never carries
`Some(empty forest)` in either direction, and parsing the empty strategy
text reconstructs `None` on both sides. -/
theorem c10_empty_forest_normalized (raw : RawStrategy) (st : Strategy)
    (h : parse_strategy_raw raw = .ok st) :
    st.outbound ≠ some [] ∧ st.inbound ≠ some [] ∧
    parse_strategy "\\/" = .ok ⟨none, none⟩ := by
  unfold parse_strategy_raw at h
  cases hob : parseTrees raw.outbound with
  | ok ob =>
    rw [hob] at h
    cases hib : parseTrees raw.inbound with
    | ok ib =>
      rw [hib] at h
      cases h
      exact ⟨norm_ne_some_nil ob, norm_ne_some_nil ib, by decide⟩
    | err e =>
      rw [hib] at h
      cases h
    | panic =>
      rw [hib] at h
      cases h
  | err e =>
    rw [hob] at h
    cases h
  | panic =>
    rw [hob] at h
    cases h

theorem c10_empty_forest_normalized_witness :
    (⟨none, none⟩ : Strategy).outbound ≠ some [] ∧
    (⟨none, none⟩ : Strategy).inbound ≠ some [] ∧
    parse_strategy "\\/" = .ok ⟨none, none⟩ :=
  c10_empty_forest_normalized ⟨[], []⟩ ⟨none, none⟩ (by decide)

end Geneva
